import Mathlib

/-!
Verification of the reconciliation layer of the gprofiler_arm_64 repository.

The Python sources are embedded shallowly:

* Python strings are modelled as `List Char`; a stack-sample multiset
  (a `Counter` mapping a stack-trace key to a non-negative count) is an
  association list with unique keys, `Stacks`.
* Python `float` arithmetic on sample ratios and process ages is modelled
  over `ℚ` (no rounding behaviour of the source is exercised at a precision
  where the float/rational distinction matters for the claims).
* Fallible code is modelled with `Except Unit`; file-system and process
  state touched by `hw_metrics.py` is modelled as explicit state records.
-/

/-- A stack-trace key: a Python string, modelled as its character list. -/
abbrev StackKey := List Char

/-- A stack-sample multiset: association list from stack key to count
(`collections.Counter` in the source; keys unique, counts ≥ 0 by type). -/
abbrev Stacks := List (StackKey × ℕ)

/-- Total sample mass of a multiset: `sum(stacks.values())` in the source. -/
def totalSamples (st : Stacks) : ℕ :=
  (st.map Prod.snd).sum

/-- Python `int()` applied to a rational value: truncation toward zero
(floor for non-negative arguments, ceiling for negative ones). -/
def pyInt (q : ℚ) : ℤ :=
  if 0 ≤ q then ⌊q⌋ else ⌈q⌉

/-- Embeds `mock_scale_sample_counts` of
`src/tests/test_merge_zero_samples_fix.py` (lines 36–46): identity when the
ratio is 1, otherwise keep `int(count * ratio)` for each entry when that
value is positive and drop the entry otherwise. -/
def mock_scale_sample_counts (st : Stacks) (r : ℚ) : Stacks :=
  if r = 1 then st
  else
    st.filterMap fun p =>
      let new_count := pyInt ((p.2 : ℚ) * r)
      if 0 < new_count then some (p.1, new_count.toNat) else none

lemma pyInt_pos_iff (q : ℚ) : 0 < pyInt q ↔ 0 < ⌊q⌋ := by
  unfold pyInt
  split
  · exact Iff.rfl
  · rename_i hq
    constructor
    · intro hpos
      have hle : ⌈q⌉ ≤ 0 :=
        Int.ceil_le.mpr (by exact_mod_cast le_of_lt (lt_of_not_ge hq))
      exact absurd hpos (not_lt.mpr hle)
    · intro hpos
      have h0 : (0 : ℚ) ≤ q := Int.floor_nonneg.mp (le_of_lt hpos)
      exact absurd h0 hq

lemma pyInt_of_nonneg (q : ℚ) (h : 0 ≤ q) : pyInt q = ⌊q⌋ := by
  unfold pyInt
  exact if_pos h

/-- C3: `scale(M, 1)` returns `M` unchanged; for a ratio `r ≠ 1` the result
maps each stack to `⌊count * r⌋` and omits every entry whose scaled value
is ≤ 0; consequently `scale(M, 0)` is the empty multiset. -/
theorem scale_sample_counts_spec (M : Stacks) :
    mock_scale_sample_counts M 1 = M ∧
    (∀ r : ℚ, r ≠ 1 →
      mock_scale_sample_counts M r =
        M.filterMap fun p =>
          if 0 < ⌊(p.2 : ℚ) * r⌋ then some (p.1, (⌊(p.2 : ℚ) * r⌋).toNat)
          else none) ∧
    mock_scale_sample_counts M 0 = [] := by
  refine ⟨by simp [mock_scale_sample_counts], ?_, ?_⟩
  · intro r hr
    show (if r = 1 then M else _) = _
    rw [if_neg hr]
    induction M with
    | nil => rfl
    | cons p rest ih =>
      simp only [List.filterMap_cons] at *
      have hiff := pyInt_pos_iff ((p.2 : ℚ) * r)
      by_cases hpos : 0 < ⌊(p.2 : ℚ) * r⌋
      · have hp : 0 < pyInt ((p.2 : ℚ) * r) := hiff.mpr hpos
        have heq : pyInt ((p.2 : ℚ) * r) = ⌊(p.2 : ℚ) * r⌋ := by
          apply pyInt_of_nonneg
          exact Int.floor_nonneg.mp (le_of_lt hpos)
        simp only [if_pos hp, if_pos hpos, heq, ih]
      · have hp : ¬ 0 < pyInt ((p.2 : ℚ) * r) := fun h => hpos (hiff.mp h)
        simp only [if_neg hp, if_neg hpos, ih]
  · show (if (0 : ℚ) = 1 then M else _) = _
    rw [if_neg (by norm_num)]
    rw [List.filterMap_eq_nil_iff]
    intro p _
    simp only [mul_zero]
    norm_num [pyInt]

/-- Witness for C3: the ratio-≠-1 branch of `scale_sample_counts_spec`
applied at a concrete multiset and ratio 1/2. -/
theorem scale_sample_counts_spec_witness :
    ((1 : ℚ) / 2 ≠ 1) ∧
    mock_scale_sample_counts [(['a'], 100), (['b'], 1)] ((1 : ℚ) / 2) =
      ([(['a'], 100), (['b'], 1)] : Stacks).filterMap (fun p =>
        if 0 < ⌊(p.2 : ℚ) * ((1 : ℚ) / 2)⌋ then
          some (p.1, (⌊(p.2 : ℚ) * ((1 : ℚ) / 2)⌋).toNat)
        else none) :=
  ⟨by norm_num,
   (scale_sample_counts_spec [(['a'], 100), (['b'], 1)]).2.1 ((1 : ℚ) / 2)
     (by norm_num)⟩

/-- Sum of per-entry floors `⌊count * r⌋` over a multiset, in `ℤ`. -/
def sumFloors (M : Stacks) (r : ℚ) : ℤ :=
  (M.map fun p => ⌊(p.2 : ℚ) * r⌋).sum

lemma totalSamples_scale_eq_sumFloors (M : Stacks) (r : ℚ) (hr : 0 ≤ r) :
    (totalSamples (mock_scale_sample_counts M r) : ℤ) = sumFloors M r := by
  by_cases h1 : r = 1
  · subst h1
    show ((totalSamples (if (1 : ℚ) = 1 then M else _) : ℕ) : ℤ) = _
    rw [if_pos rfl]
    induction M with
    | nil => rfl
    | cons p rest ih =>
      simp only [totalSamples, sumFloors, List.map_cons, List.sum_cons,
        mul_one, Int.floor_natCast] at *
      push_cast at ih ⊢
      linarith [ih]
  · show ((totalSamples (if r = 1 then M else _) : ℕ) : ℤ) = _
    rw [if_neg h1]
    induction M with
    | nil => rfl
    | cons p rest ih =>
      have hq : (0 : ℚ) ≤ (p.2 : ℚ) * r := mul_nonneg (Nat.cast_nonneg _) hr
      have hfl : 0 ≤ ⌊(p.2 : ℚ) * r⌋ := Int.floor_nonneg.mpr hq
      have hpy : pyInt ((p.2 : ℚ) * r) = ⌊(p.2 : ℚ) * r⌋ := pyInt_of_nonneg _ hq
      simp only [List.filterMap_cons, hpy]
      by_cases hpos : 0 < ⌊(p.2 : ℚ) * r⌋
      · rw [if_pos hpos]
        simp only [totalSamples, sumFloors, List.map_cons, List.sum_cons] at *
        push_cast [Int.toNat_of_nonneg hfl] at ih ⊢
        linarith [ih]
      · rw [if_neg hpos]
        have hz : ⌊(p.2 : ℚ) * r⌋ = 0 := le_antisymm (not_lt.mp hpos) hfl
        simp only [sumFloors, List.map_cons, List.sum_cons, hz] at *
        omega

lemma sumFloors_le_total_mul (M : Stacks) (r : ℚ) :
    ((sumFloors M r : ℤ) : ℚ) ≤ (totalSamples M : ℚ) * r := by
  induction M with
  | nil => simp [sumFloors, totalSamples]
  | cons p rest ih =>
    simp only [sumFloors, totalSamples, List.map_cons, List.sum_cons] at *
    push_cast at ih ⊢
    have hfl := Int.floor_le ((p.2 : ℚ) * r)
    nlinarith [hfl, ih]

lemma total_mul_sub_len_le_sumFloors (M : Stacks) (r : ℚ) :
    (totalSamples M : ℚ) * r - M.length ≤ ((sumFloors M r : ℤ) : ℚ) := by
  induction M with
  | nil => simp [sumFloors, totalSamples]
  | cons p rest ih =>
    simp only [sumFloors, totalSamples, List.map_cons, List.sum_cons,
      List.length_cons] at *
    push_cast at ih ⊢
    have hfl := le_of_lt (Int.sub_one_lt_floor ((p.2 : ℚ) * r))
    nlinarith [hfl, ih]

lemma total_mul_sub_len_lt_sumFloors (M : Stacks) (r : ℚ) (h : M ≠ []) :
    (totalSamples M : ℚ) * r - M.length < ((sumFloors M r : ℤ) : ℚ) := by
  match M with
  | [] => exact absurd rfl h
  | p :: rest =>
    have hrest := total_mul_sub_len_le_sumFloors rest r
    simp only [sumFloors, totalSamples, List.map_cons, List.sum_cons,
      List.length_cons] at *
    push_cast at hrest ⊢
    have hfl := Int.sub_one_lt_floor ((p.2 : ℚ) * r)
    nlinarith [hfl, hrest]

/-- C4: for a multiset `M` of unique keys with total mass `T > 0` and a
reference total `R > 0`, the total of `scale(M, R/T)` is at most `R` and
strictly greater than `R` minus the number of distinct keys of `M` (with
unique keys, `M.length`): the flooring loss is less than one per entry. -/
theorem scale_total_bounds (M : Stacks) (R : ℕ)
    (hkeys : (M.map Prod.fst).Nodup)
    (hT : 0 < totalSamples M) (hR : 0 < R) :
    totalSamples (mock_scale_sample_counts M ((R : ℚ) / (totalSamples M : ℚ))) ≤ R ∧
    (R : ℤ) - M.length <
      (totalSamples (mock_scale_sample_counts M ((R : ℚ) / (totalSamples M : ℚ))) : ℤ) := by
  have hTne : ((totalSamples M : ℚ)) ≠ 0 := by
    exact_mod_cast Nat.pos_iff_ne_zero.mp hT
  have hr : (0 : ℚ) ≤ (R : ℚ) / (totalSamples M : ℚ) :=
    div_nonneg (Nat.cast_nonneg _) (Nat.cast_nonneg _)
  have hTr : (totalSamples M : ℚ) * ((R : ℚ) / (totalSamples M : ℚ)) = (R : ℚ) := by
    field_simp
  have heq := totalSamples_scale_eq_sumFloors M ((R : ℚ) / (totalSamples M : ℚ)) hr
  have hMne : M ≠ [] := by
    intro hnil
    rw [hnil] at hT
    simp [totalSamples] at hT
  constructor
  · have hub := sumFloors_le_total_mul M ((R : ℚ) / (totalSamples M : ℚ))
    rw [hTr] at hub
    have hub' : sumFloors M ((R : ℚ) / (totalSamples M : ℚ)) ≤ (R : ℤ) := by
      exact_mod_cast hub
    rw [← heq] at hub'
    exact_mod_cast hub'
  · have hlb := total_mul_sub_len_lt_sumFloors M ((R : ℚ) / (totalSamples M : ℚ)) hMne
    rw [hTr] at hlb
    have hlb' : (R : ℤ) - (M.length : ℤ) <
        sumFloors M ((R : ℚ) / (totalSamples M : ℚ)) := by
      exact_mod_cast hlb
    rw [← heq] at hlb'
    exact hlb'

/-- Witness for C4: `scale_total_bounds` applied at a three-key multiset of
total mass 175 and reference total 120 (the scenario of
`test_merge_with_nonzero_perf_samples_scales_correctly`). -/
theorem scale_total_bounds_witness :
    totalSamples (mock_scale_sample_counts [(['a'], 100), (['b'], 50), (['c'], 25)]
      ((120 : ℚ) / (totalSamples [(['a'], 100), (['b'], 50), (['c'], 25)] : ℚ))) ≤ 120 ∧
    (120 : ℤ) - ([(['a'], 100), (['b'], 50), (['c'], 25)] : Stacks).length <
      (totalSamples (mock_scale_sample_counts [(['a'], 100), (['b'], 50), (['c'], 25)]
        ((120 : ℚ) / (totalSamples [(['a'], 100), (['b'], 50), (['c'], 25)] : ℚ))) : ℤ) :=
  scale_total_bounds [(['a'], 100), (['b'], 50), (['c'], 25)] 120
    (by decide) (by decide) (by decide)

/-- Count of a key in a multiset: sum of the values stored under `k`
(a single lookup when keys are unique, as in a `Counter`). -/
def countOf : Stacks → StackKey → ℕ
  | [], _ => 0
  | (k', c) :: rest, k => (if k' = k then c else 0) + countOf rest k

/-- Key membership in a multiset. -/
def hasKey (st : Stacks) (k : StackKey) : Bool :=
  st.any fun p => p.1 = k

/-- One step of Python `Counter.update`: add `v` to the entry of key `k`,
appending a fresh entry when the key is absent. -/
def counterAdd : Stacks → StackKey → ℕ → Stacks
  | [], k, v => [(k, v)]
  | (k', c) :: rest, k, v =>
    if k' = k then (k', c + v) :: rest else (k', c) :: counterAdd rest k v

/-- Embeds `MockProfilingErrorStack.attach_error_to_stacks` of
`src/tests/test_merge_zero_samples_fix.py` (lines 29–34):
`combined = Counter(perf_stacks); combined.update(error_stacks)` — an
additive key-by-key merge. -/
def attach_error_to_stacks (perf_stacks error_stacks : Stacks) : Stacks :=
  error_stacks.foldl (fun acc p => counterAdd acc p.1 p.2) perf_stacks

lemma countOf_counterAdd (m : Stacks) (k0 : StackKey) (v : ℕ) (k : StackKey) :
    countOf (counterAdd m k0 v) k = countOf m k + (if k0 = k then v else 0) := by
  induction m with
  | nil => simp [counterAdd, countOf]
  | cons p rest ih =>
    by_cases hk : p.1 = k0
    · simp only [counterAdd, countOf, hk, if_pos rfl]
      by_cases hkk : k0 = k
      · simp [hkk]
        omega
      · simp [hkk, countOf]
    · show countOf (if p.1 = k0 then _ else _) k = _
      rw [if_neg hk]
      simp only [countOf, ih]
      omega

lemma hasKey_counterAdd (m : Stacks) (k0 : StackKey) (v : ℕ) (k : StackKey) :
    hasKey (counterAdd m k0 v) k = (hasKey m k || decide (k0 = k)) := by
  induction m with
  | nil => simp [counterAdd, hasKey]
  | cons p rest ih =>
    by_cases hk : p.1 = k0
    · simp only [counterAdd, if_pos hk, hasKey, List.any_cons]
      by_cases hkk : p.1 = k
      · simp [hkk, hk ▸ hkk]
      · have : ¬ k0 = k := fun h => hkk (hk.trans h)
        simp [hkk, this]
    · show hasKey (if p.1 = k0 then _ else _) k = _
      rw [if_neg hk]
      simp only [hasKey, List.any_cons] at *
      rw [ih]
      by_cases hkk : p.1 = k <;> simp [hkk]

/-- C6: attaching an error multiset to a target combines counts key by key —
every key is mapped to the sum of its two counts (neither side discarded,
no key double counted), and the key set of the result is the union of the
two key sets. -/
theorem attach_error_to_stacks_spec (T E : Stacks) (k : StackKey) :
    countOf (attach_error_to_stacks T E) k = countOf T k + countOf E k ∧
    hasKey (attach_error_to_stacks T E) k = (hasKey T k || hasKey E k) := by
  induction E generalizing T with
  | nil =>
    simp [attach_error_to_stacks, countOf, hasKey]
  | cons e rest ih =>
    have step : attach_error_to_stacks T (e :: rest) =
        attach_error_to_stacks (counterAdd T e.1 e.2) rest := rfl
    rw [step]
    obtain ⟨ihc, ihk⟩ := ih (counterAdd T e.1 e.2)
    constructor
    · rw [ihc, countOf_counterAdd]
      show countOf T k + (if e.1 = k then e.2 else 0) + countOf rest k =
        countOf T k + ((if e.1 = k then e.2 else 0) + countOf rest k)
      omega
    · rw [ihk, hasKey_counterAdd]
      simp only [hasKey, List.any_cons]
      rw [Bool.or_assoc]

/-- Substring test on character lists (Python `in` on strings). -/
def hasSubstring (pat : List Char) : List Char → Bool
  | [] => pat.isPrefixOf []
  | c :: rest => pat.isPrefixOf (c :: rest) || hasSubstring pat rest

/-- Embeds `MockProfilingErrorStack.is_error_stack` of
`src/tests/test_merge_zero_samples_fix.py` (lines 24–27): a multiset is an
error stack when any of its keys contains "error" (case-insensitively). -/
def is_error_stack (st : Stacks) : Bool :=
  st.any fun p => hasSubstring "error".toList (p.1.map Char.toLower)

/-- Modelled from the spec: the Profile Reconciler's per-process merge step
(spec §4.4 steps 3–4) is not itself under `src/` — only its unit tests are —
so it is reconstructed from the spec's words and the inline merge logic the
tests exercise (`test_merge_zero_samples_fix.py` lines 72–88, 96–107,
192–204): with a positive reference (perf) total, an error stack is attached
to the reference's stacks, otherwise the runtime multiset is rescaled by
`refTotal / runtimeTotal` (a zero runtime total is guarded as nothing to
scale); with a zero reference total the runtime multiset passes through
unscaled and unmodified. -/
def merge_process (perf_stacks runtime_stacks : Stacks) : Stacks :=
  let perf_samples_count := totalSamples perf_stacks
  let profile_samples_count := totalSamples runtime_stacks
  if 0 < perf_samples_count then
    if is_error_stack runtime_stacks then
      attach_error_to_stacks perf_stacks runtime_stacks
    else if profile_samples_count = 0 then
      runtime_stacks
    else
      mock_scale_sample_counts runtime_stacks
        ((perf_samples_count : ℚ) / (profile_samples_count : ℚ))
  else
    runtime_stacks

/-- C1: when the runtime profile has positive total mass and the reference
(perf) total for the process is zero, the merged multiset is the runtime
multiset itself — no scaling, no mass lost or added. -/
theorem merge_zero_ref_passthrough (perf_stacks runtime_stacks : Stacks)
    (hT : 0 < totalSamples runtime_stacks)
    (href : totalSamples perf_stacks = 0) :
    merge_process perf_stacks runtime_stacks = runtime_stacks ∧
    totalSamples (merge_process perf_stacks runtime_stacks) =
      totalSamples runtime_stacks := by
  have hmerge : merge_process perf_stacks runtime_stacks = runtime_stacks := by
    unfold merge_process
    rw [href]
    simp
  exact ⟨hmerge, by rw [hmerge]⟩

/-- Witness for C1: `merge_zero_ref_passthrough` at the spec's scenario —
an empty reference profile and a runtime profile of total mass 300. -/
theorem merge_zero_ref_passthrough_witness :
    merge_process [] [("py-spy;main;a".toList, 200), ("py-spy;main;b".toList, 100)] =
      [("py-spy;main;a".toList, 200), ("py-spy;main;b".toList, 100)] ∧
    totalSamples (merge_process []
        [("py-spy;main;a".toList, 200), ("py-spy;main;b".toList, 100)]) =
      totalSamples [("py-spy;main;a".toList, 200), ("py-spy;main;b".toList, 100)] :=
  merge_zero_ref_passthrough [] [("py-spy;main;a".toList, 200), ("py-spy;main;b".toList, 100)]
    (by decide) (by decide)

/-- A process age as computed by `_get_process_age`: a finite number of
seconds, or the `float('inf')` returned when the age cannot be read. -/
inductive ProcessAge where
  | finite (seconds : ℚ)
  | infinite
deriving DecidableEq

/-- A process as the admission gate sees it: `create_time()` either returns
a timestamp or raises (`Except.error`). -/
structure AdmProcess where
  createTime : Except Unit ℚ

/-- Embeds `TestProfilerBase._get_process_age` of
`src/tests/test_short_lived_process_fix.py` (lines 30–37):
`time.time() - process.create_time()`, with any exception recovered locally
into a very large (infinite) age. -/
def get_process_age (now : ℚ) (p : AdmProcess) : ProcessAge :=
  match p.createTime with
  | .ok t => .finite (now - t)
  | .error _ => .infinite

/-- The comparison `process_age < min_duration` for a Python float age and
an integer threshold; `float('inf') < d` is false for every finite `d`. -/
def ProcessAge.ltNat : ProcessAge → ℕ → Bool
  | .finite a, d => decide (a < (d : ℚ))
  | .infinite, _ => false

/-- Embeds `TestProfilerBase.should_skip_young_process` of
`src/tests/test_short_lived_process_fix.py` (lines 39–50): skip when the
computed age is strictly below the threshold, otherwise do not skip (the
`except` branch is unreachable since `_get_process_age` never raises). -/
def should_skip_young_process (min_duration : ℕ) (now : ℚ) (p : AdmProcess) : Bool :=
  if (get_process_age now p).ltNat min_duration then true else false

/-- C5: for a process of determinable age, the gate skips it iff
`age < min_duration`; age exactly equal to the threshold is not skipped
(the bound is exclusive), and `min_duration = 0` admits every process of
age ≥ 0. -/
theorem should_skip_iff_age_lt (min_duration : ℕ) (now t : ℚ) :
    (should_skip_young_process min_duration now ⟨.ok t⟩ = true ↔
      now - t < (min_duration : ℚ)) ∧
    (now - t = (min_duration : ℚ) →
      should_skip_young_process min_duration now ⟨.ok t⟩ = false) ∧
    (min_duration = 0 → 0 ≤ now - t →
      should_skip_young_process min_duration now ⟨.ok t⟩ = false) := by
  have hage : get_process_age now ⟨.ok t⟩ = .finite (now - t) := rfl
  refine ⟨?_, ?_, ?_⟩
  · simp [should_skip_young_process, hage, ProcessAge.ltNat]
  · intro heq
    simp [should_skip_young_process, hage, ProcessAge.ltNat, heq]
  · intro hzero hnonneg
    subst hzero
    simp only [should_skip_young_process, hage, ProcessAge.ltNat, Nat.cast_zero]
    rw [if_neg]
    simp only [decide_eq_true_eq]
    exact not_lt.mpr hnonneg

/-- Witness for C5: `should_skip_iff_age_lt` at threshold 10 with age
exactly 10 (not skipped) and at threshold 0 with age 9/2 (not skipped). -/
theorem should_skip_iff_age_lt_witness :
    should_skip_young_process 10 10 ⟨.ok 0⟩ = false ∧
    should_skip_young_process 0 5 ⟨.ok (1/2)⟩ = false :=
  ⟨(should_skip_iff_age_lt 10 10 0).2.1 (by norm_num),
   (should_skip_iff_age_lt 0 5 (1/2)).2.2 rfl (by norm_num)⟩

/-- C7: when reading the age raises, the failure is recovered locally into
an infinite ("unknown/very large") age, the gate returns "do not skip",
and no error is surfaced (the gate is a total function into `Bool`). -/
theorem age_failure_recovered (min_duration : ℕ) (now : ℚ) (p : AdmProcess)
    (herr : p.createTime = .error ()) :
    get_process_age now p = .infinite ∧
    should_skip_young_process min_duration now p = false := by
  have hage : get_process_age now p = .infinite := by
    unfold get_process_age
    rw [herr]
  exact ⟨hage, by simp [should_skip_young_process, hage, ProcessAge.ltNat]⟩

/-- Witness for C7: `age_failure_recovered` at a concrete raising process
and threshold 10. -/
theorem age_failure_recovered_witness :
    get_process_age 100 ⟨.error ()⟩ = .infinite ∧
    should_skip_young_process 10 100 ⟨.error ()⟩ = false :=
  age_failure_recovered 10 100 ⟨.error ()⟩ rfl

/-- Presence flags for the perfspect output files of `hw_metrics.py`
(the directory plus the five well-known filenames scoped to the host). -/
structure PerfspectFiles where
  dirExists : Bool
  rawCsv : Bool
  summaryCsv : Bool
  summaryHtml : Bool
  latestCsv : Bool
  latestHtml : Bool
deriving DecidableEq

/-- Well-formed file state: files can only exist inside an existing
directory. -/
def PerfspectFiles.wf (f : PerfspectFiles) : Prop :=
  f.dirExists = false →
    f.rawCsv = false ∧ f.summaryCsv = false ∧ f.summaryHtml = false ∧
    f.latestCsv = false ∧ f.latestHtml = false

instance (f : PerfspectFiles) : Decidable f.wf := by
  unfold PerfspectFiles.wf
  infer_instance

/-- Embeds `HWMetricsMonitor._cleanup` (`src/gprofiler/hw_metrics.py`
lines 105–120): create the data directory when missing, otherwise remove
the raw CSV, summary CSV and summary HTML files when present. -/
def cleanupFiles (f : PerfspectFiles) : PerfspectFiles :=
  if f.dirExists = false then { f with dirExists := true }
  else { f with rawCsv := false, summaryCsv := false, summaryHtml := false }

/-- State of one `HWMetricsMonitor` instance together with the external
processes it has launched: `psProcess` is the `_ps_process` slot, `thread`
the `_thread` slot, `livePids` the external perfspect processes launched
and not yet terminated, and `nextPid` a fresh-pid counter. -/
structure MonitorState where
  psProcess : Option ℕ
  thread : Option ℕ
  livePids : List ℕ
  nextPid : ℕ
  files : PerfspectFiles
deriving DecidableEq

/-- Embeds `HWMetricsMonitor.__init__` (lines 54–77): handles start empty
and `_cleanup()` runs once at construction. -/
def initMonitor (f : PerfspectFiles) : MonitorState :=
  { psProcess := none, thread := none, livePids := [], nextPid := 0,
    files := cleanupFiles f }

/-- Embeds `HWMetricsMonitor.start` (lines 79–96): a missing or
non-executable perfspect path (`pathOk = false`) makes it a no-op;
otherwise it launches a new external process into `_ps_process`,
overwriting the slot. It touches no files. -/
def monitorStart (pathOk : Bool) (s : MonitorState) : MonitorState :=
  if pathOk then
    { s with psProcess := some s.nextPid,
             livePids := s.nextPid :: s.livePids,
             nextPid := s.nextPid + 1 }
  else s

/-- Embeds `HWMetricsMonitor.stop` (lines 98–103): terminate the tracked
process when the slot is non-empty (a no-op on an already-dead pid), run
`_cleanup()`, and set `_thread = None`; `_ps_process` is left as is. -/
def monitorStop (s : MonitorState) : MonitorState :=
  let afterTerm :=
    match s.psProcess with
    | some pid => { s with livePids := s.livePids.erase pid }
    | none => s
  { afterTerm with files := cleanupFiles afterTerm.files, thread := none }

lemma cleanupFiles_purges (f : PerfspectFiles) (hwf : f.wf) :
    (cleanupFiles f).rawCsv = false ∧ (cleanupFiles f).summaryCsv = false ∧
    (cleanupFiles f).summaryHtml = false ∧ (cleanupFiles f).dirExists = true := by
  unfold cleanupFiles
  by_cases hd : f.dirExists = false
  · obtain ⟨h1, h2, h3, _, _⟩ := hwf hd
    rw [if_pos hd]
    exact ⟨h1, h2, h3, rfl⟩
  · rw [if_neg hd]
    exact ⟨rfl, rfl, rfl, Bool.of_not_eq_false hd⟩

lemma cleanupFiles_idem (f : PerfspectFiles) (hwf : f.wf) :
    cleanupFiles (cleanupFiles f) = cleanupFiles f := by
  cases f with
  | mk d r sc sh lc lh =>
    cases d
    · obtain ⟨h1, h2, h3, h4, h5⟩ := hwf rfl
      simp only at h1 h2 h3 h4 h5
      subst h1; subst h2; subst h3; subst h4; subst h5
      simp [cleanupFiles]
    · simp [cleanupFiles]

/-- C2 counterexample: from a well-formed state with a stale summary CSV
present, `start()` leaves the stale file in place, and a second `start()`
without an intervening `stop()` leaves two launched external processes
live — refuting both halves of the claimed invariant. -/
theorem monitor_start_counterexample :
    (monitorStart true
        ⟨none, none, [], 0, ⟨true, false, true, false, false, false⟩⟩).files.summaryCsv
      = true ∧
    (monitorStart true (monitorStart true
        ⟨none, none, [], 0, ⟨true, false, true, false, false, false⟩⟩)).livePids.length
      = 2 := by
  decide

/-- C2 amended: purging of stale output files happens at construction and
in every `stop()`, not in `start()`; after a `stop()` (whose tracked pid is
the only possibly-live launched process, as in the intended
Idle→Running→Idle alternation) no stale output file remains, no launched
process is live, and a following `start()` leaves at most one live
external process. -/
theorem monitor_stop_then_start_invariant (s : MonitorState) (pathOk : Bool)
    (hwf : s.files.wf)
    (hlive : s.livePids = [] ∨ ∃ p, s.psProcess = some p ∧ s.livePids = [p]) :
    ((monitorStop s).files.rawCsv = false ∧
      (monitorStop s).files.summaryCsv = false ∧
      (monitorStop s).files.summaryHtml = false ∧
      (monitorStop s).files.dirExists = true) ∧
    (monitorStop s).livePids = [] ∧
    (monitorStart pathOk (monitorStop s)).livePids.length ≤ 1 := by
  have hfiles : (monitorStop s).files = cleanupFiles s.files := by
    unfold monitorStop
    cases s.psProcess <;> rfl
  have hlive' : (monitorStop s).livePids = [] := by
    unfold monitorStop
    rcases hlive with h | ⟨p, hp, hl⟩
    · cases hps : s.psProcess <;> simp [hps, h]
    · simp [hp, hl]
  refine ⟨hfiles ▸ cleanupFiles_purges s.files hwf, hlive', ?_⟩
  cases pathOk <;> simp [monitorStart, hlive']

/-- Witness for C2 (amended): `monitor_stop_then_start_invariant` on a
running monitor whose tracked process is the one live launched process. -/
theorem monitor_stop_then_start_invariant_witness :
    ((monitorStop ⟨some 0, none, [0], 1, ⟨true, true, true, true, false, false⟩⟩).files.rawCsv = false ∧
      (monitorStop ⟨some 0, none, [0], 1, ⟨true, true, true, true, false, false⟩⟩).files.summaryCsv = false ∧
      (monitorStop ⟨some 0, none, [0], 1, ⟨true, true, true, true, false, false⟩⟩).files.summaryHtml = false ∧
      (monitorStop ⟨some 0, none, [0], 1, ⟨true, true, true, true, false, false⟩⟩).files.dirExists = true) ∧
    (monitorStop ⟨some 0, none, [0], 1, ⟨true, true, true, true, false, false⟩⟩).livePids = [] ∧
    (monitorStart true (monitorStop ⟨some 0, none, [0], 1, ⟨true, true, true, true, false, false⟩⟩)).livePids.length ≤ 1 :=
  monitor_stop_then_start_invariant
    ⟨some 0, none, [0], 1, ⟨true, true, true, true, false, false⟩⟩ true
    (by decide) (Or.inr ⟨0, rfl, rfl⟩)

/-- C8 counterexample: after `start()` then `stop()`, the internal process
handle `_ps_process` is still set — `stop()` clears only `_thread`, so it
does not clear the monitor's internal handles as claimed. -/
theorem monitor_stop_handle_counterexample :
    (monitorStop (monitorStart true
        (initMonitor ⟨false, false, false, false, false, false⟩))).psProcess ≠ none := by
  decide

/-- C8 amended: `stop()` requests termination of the tracked external
process if one is live (it is no longer live afterwards), removes the three
well-known output files (creating the output directory when missing), and
clears the thread handle — the process handle `_ps_process` is retained,
not cleared; `stop()` is idempotent and safe to call when never started
(nothing is terminated, only cleanup runs). -/
theorem monitor_stop_spec (s : MonitorState)
    (hwf : s.files.wf) (hnodup : s.livePids.Nodup) :
    (∀ pid, s.psProcess = some pid → pid ∉ (monitorStop s).livePids) ∧
    ((monitorStop s).files.rawCsv = false ∧
      (monitorStop s).files.summaryCsv = false ∧
      (monitorStop s).files.summaryHtml = false ∧
      (monitorStop s).files.dirExists = true) ∧
    (monitorStop s).thread = none ∧
    (monitorStop s).psProcess = s.psProcess ∧
    monitorStop (monitorStop s) = monitorStop s ∧
    (s.psProcess = none → (monitorStop s).livePids = s.livePids) := by
  have hfiles : (monitorStop s).files = cleanupFiles s.files := by
    unfold monitorStop
    cases s.psProcess <;> rfl
  refine ⟨?_, hfiles ▸ cleanupFiles_purges s.files hwf, ?_, ?_, ?_, ?_⟩
  · intro pid hpid
    unfold monitorStop
    simp only [hpid]
    exact hnodup.not_mem_erase
  · cases hps : s.psProcess <;> simp [monitorStop, hps]
  · cases hps : s.psProcess <;> simp [monitorStop, hps]
  · cases s with
    | mk ps th lp np f =>
      cases ps with
      | none =>
        simp only [monitorStop]
        rw [cleanupFiles_idem f hwf]
      | some pid =>
        simp only [monitorStop]
        rw [cleanupFiles_idem f hwf,
          List.erase_of_not_mem (hnodup.not_mem_erase (a := pid))]
  · intro hps
    unfold monitorStop
    simp [hps]

/-- Witness for C8 (amended): `monitor_stop_spec` on a concrete running
monitor state. -/
theorem monitor_stop_spec_witness :
    (∀ pid, (⟨some 0, none, [0], 1, ⟨true, false, true, false, false, false⟩⟩ : MonitorState).psProcess = some pid →
      pid ∉ (monitorStop ⟨some 0, none, [0], 1, ⟨true, false, true, false, false, false⟩⟩).livePids) ∧
    ((monitorStop ⟨some 0, none, [0], 1, ⟨true, false, true, false, false, false⟩⟩).files.rawCsv = false ∧
      (monitorStop ⟨some 0, none, [0], 1, ⟨true, false, true, false, false, false⟩⟩).files.summaryCsv = false ∧
      (monitorStop ⟨some 0, none, [0], 1, ⟨true, false, true, false, false, false⟩⟩).files.summaryHtml = false ∧
      (monitorStop ⟨some 0, none, [0], 1, ⟨true, false, true, false, false, false⟩⟩).files.dirExists = true) ∧
    (monitorStop ⟨some 0, none, [0], 1, ⟨true, false, true, false, false, false⟩⟩).thread = none ∧
    (monitorStop ⟨some 0, none, [0], 1, ⟨true, false, true, false, false, false⟩⟩).psProcess =
      (⟨some 0, none, [0], 1, ⟨true, false, true, false, false, false⟩⟩ : MonitorState).psProcess ∧
    monitorStop (monitorStop ⟨some 0, none, [0], 1, ⟨true, false, true, false, false, false⟩⟩) =
      monitorStop ⟨some 0, none, [0], 1, ⟨true, false, true, false, false, false⟩⟩ ∧
    ((⟨some 0, none, [0], 1, ⟨true, false, true, false, false, false⟩⟩ : MonitorState).psProcess = none →
      (monitorStop ⟨some 0, none, [0], 1, ⟨true, false, true, false, false, false⟩⟩).livePids =
        (⟨some 0, none, [0], 1, ⟨true, false, true, false, false, false⟩⟩ : MonitorState).livePids) :=
  monitor_stop_spec ⟨some 0, none, [0], 1, ⟨true, false, true, false, false, false⟩⟩
    (by decide) (by decide)

/-- Contents of the two summary artifacts at query time: `none` when the
file is absent; the CSV is a list of lines (each a character list), the
HTML a list of bytes. -/
structure QueryFiles where
  summaryCsvLines : Option (List (List Char))
  summaryHtmlBytes : Option (List ℕ)

/-- Python `line.split(",")` on a character list: the comma-separated
fields, always at least one field. -/
def splitOnComma : List Char → List (List Char)
  | [] => [[]]
  | c :: rest =>
    match splitOnComma rest with
    | [] => [[c]]
    | f :: fs => if c = ',' then [] :: f :: fs else (c :: f) :: fs

/-- Python `dict` assignment `d[k] = v`: overwrite the entry when the key
exists, append it otherwise. -/
def dictInsert : List (List Char × List Char) → List Char → List Char →
    List (List Char × List Char)
  | [], k, v => [(k, v)]
  | (k', v') :: rest, k, v =>
    if k' = k then (k, v) :: rest else (k', v') :: dictInsert rest k v

/-- The loop of `_get_hw_metrics_dict`: for each line after the header,
`csv_data = line.split(",")`, then `summary_dict[csv_data[0]] = csv_data[1]`;
accessing `csv_data[1]` raises `IndexError` when the line has no comma. -/
def parseSummaryLines : List (List Char) → List (List Char × List Char) →
    Except Unit (List (List Char × List Char))
  | [], acc => .ok acc
  | l :: rest, acc =>
    match splitOnComma l with
    | f0 :: f1 :: _ => parseSummaryLines rest (dictInsert acc f0 f1)
    | _ => .error ()

/-- Embeds `HWMetricsMonitor._get_hw_metrics_dict`
(`src/gprofiler/hw_metrics.py` lines 122–136): `None` when the summary CSV
is absent; otherwise `next(f)` skips the header (raising `StopIteration`
when the file has no lines), and each remaining line is split on commas
into a key and a value. The copy-to-latest-then-delete handoff does not
change the file's contents and is elided. -/
def get_hw_metrics_dict (file : Option (List (List Char))) :
    Except Unit (Option (List (List Char × List Char))) :=
  match file with
  | none => .ok none
  | some [] => .error ()
  | some (_ :: rest) => (parseSummaryLines rest []).map some

/-- Embeds `HWMetricsMonitor._get_hw_metrics_html` (lines 138–166): `None`
when the summary HTML is absent; otherwise the bytes are compressed and
base64-encoded — abstracted here as an arbitrary `encode` function, which
the claims never inspect. -/
def get_hw_metrics_html (encode : List ℕ → List Char) (file : Option (List ℕ)) :
    Except Unit (Option (List Char)) :=
  match file with
  | none => .ok none
  | some bytes => .ok (some (encode bytes))

/-- Embeds `HWMetricsMonitorBase.get_hw_metrics` (lines 49–50): build an
`HWMetrics` pair from the two private readers; an exception in either
propagates. -/
def get_hw_metrics (encode : List ℕ → List Char) (fs : QueryFiles) :
    Except Unit (Option (List (List Char × List Char)) × Option (List Char)) := do
  let d ← get_hw_metrics_dict fs.summaryCsvLines
  let h ← get_hw_metrics_html encode fs.summaryHtmlBytes
  return (d, h)

/-- C9: when neither the summary counters CSV nor the summary HTML report
is present, `get_hw_metrics` returns both fields absent (`None`) and
raises no exception. -/
theorem get_hw_metrics_absent (encode : List ℕ → List Char) (fs : QueryFiles)
    (hcsv : fs.summaryCsvLines = none) (hhtml : fs.summaryHtmlBytes = none) :
    get_hw_metrics encode fs = .ok (none, none) := by
  unfold get_hw_metrics get_hw_metrics_dict get_hw_metrics_html
  rw [hcsv, hhtml]
  rfl

/-- Witness for C9: `get_hw_metrics_absent` at the empty file system and a
trivial encoder. -/
theorem get_hw_metrics_absent_witness :
    get_hw_metrics (fun _ => []) ⟨none, none⟩ = .ok (none, none) :=
  get_hw_metrics_absent (fun _ => []) ⟨none, none⟩ rfl rfl

lemma splitOnComma_ne_nil (l : List Char) : splitOnComma l ≠ [] := by
  cases l with
  | nil => simp [splitOnComma]
  | cons c rest =>
    simp only [splitOnComma]
    cases splitOnComma rest with
    | nil => simp
    | cons f fs =>
      by_cases hc : c = ',' <;> simp [hc]

lemma splitOnComma_two_iff (l : List Char) :
    2 ≤ (splitOnComma l).length ↔ ',' ∈ l := by
  induction l with
  | nil => simp [splitOnComma]
  | cons c rest ih =>
    simp only [splitOnComma]
    cases hs : splitOnComma rest with
    | nil => exact absurd hs (splitOnComma_ne_nil rest)
    | cons f fs =>
      rw [hs] at ih
      dsimp only
      by_cases hc : c = ','
      · simp [hc]
      · rw [if_neg hc]
        simp only [List.length_cons] at ih ⊢
        rw [ih]
        constructor
        · intro h
          exact List.mem_cons_of_mem _ h
        · intro h
          rcases List.mem_cons.mp h with h1 | h1
          · exact absurd h1.symm hc
          · exact h1

lemma exceptIsOk_map {α β : Type} (f : α → β) (e : Except Unit α) :
    (e.map f).isOk = e.isOk := by
  cases e <;> rfl

lemma parseSummaryLines_isOk (rest : List (List Char))
    (acc : List (List Char × List Char)) :
    (parseSummaryLines rest acc).isOk = true ↔ ∀ l ∈ rest, ',' ∈ l := by
  induction rest generalizing acc with
  | nil => simp [parseSummaryLines, Except.isOk, Except.toBool]
  | cons l rest ih =>
    simp only [parseSummaryLines]
    cases hs : splitOnComma l with
    | nil => exact absurd hs (splitOnComma_ne_nil l)
    | cons f0 fs =>
      cases fs with
      | nil =>
        have hnc : ',' ∉ l := by
          intro hmem
          have h2 := (splitOnComma_two_iff l).mpr hmem
          rw [hs] at h2
          simp at h2
        dsimp only
        constructor
        · intro h
          simp [Except.isOk, Except.toBool] at h
        · intro h
          exact absurd (h l (List.mem_cons_self l rest)) hnc
      | cons f1 fs' =>
        have hc : ',' ∈ l := by
          apply (splitOnComma_two_iff l).mp
          rw [hs]
          simp
        dsimp only
        rw [ih]
        simp [hc]

/-- C10: with the summary counters CSV present, `_get_hw_metrics_dict`
returns a dictionary without raising exactly when the file has at least one
line (the header) and every subsequent line contains a comma; an empty file
(`next(f)` raises `StopIteration`) or a data line without a comma
(`csv_data[1]` raises `IndexError`) makes the call raise instead. -/
theorem get_hw_metrics_dict_ok_iff :
    (∀ fileLines : List (List Char),
      (get_hw_metrics_dict (some fileLines)).isOk = true ↔
        (fileLines ≠ [] ∧ ∀ l ∈ fileLines.tail, ',' ∈ l)) ∧
    get_hw_metrics_dict (some []) = .error () ∧
    get_hw_metrics_dict (some [[], [Char.ofNat 120]]) = .error () := by
  refine ⟨?_, rfl, ?_⟩
  · intro fileLines
    cases fileLines with
    | nil => simp [get_hw_metrics_dict, Except.isOk, Except.toBool]
    | cons h rest =>
      simp only [get_hw_metrics_dict, List.tail_cons, exceptIsOk_map]
      rw [parseSummaryLines_isOk]
      simp
  · rfl
